import Mathlib

/-! A shallow embedding of `Vector<T>` (src/vector.h, src/vector.cpp).

The container has three members, `capacity_`, `size_` and `data_`.  The block
behind `data_` is modelled as a list of slots; a slot is `none` while it is raw
(allocated but not constructed) and `some x` once an element `x` has been
constructed in it.  `data_` itself is `none` for `nullptr`.

Conventions of the embedding:

* `size_t` is 64 bits wide; `size_ + 1`, `++size_`, `size_ - 1` and
  `tmpCapacity * 2` are computed modulo `2 ^ 64`.
* The checks the source writes as `static_assert (e)` on run-time values are
  run-time checks: an operation whose check fails returns
  `Err.assertion_failed`.  The checks on type traits (`is_copy_constructible`
  and friends) are properties of `T` decided at build time; `T` is taken to
  satisfy them.
* An access outside the block, a read or a destruction of a raw slot, and an
  access through `nullptr` are undefined behaviour: `Err.undefined_behaviour`.
* `operator new` succeeds and the constructors of `T` do not throw, so the
  `catch` blocks are not entered.  Copying and moving an element both put the
  same value into the destination slot.
-/

namespace Cpp

/-- Ways an operation can fail to return normally. -/
inductive Err where
  | assertion_failed
  | undefined_behaviour
deriving DecidableEq, Repr

/-- A block of slots: `none` is raw memory, `some x` a constructed element. -/
abbrev Block (T : Type) := List (Option T)

/-- A value of type `T*`: `none` is `nullptr`. -/
abbrev Ptr (T : Type) := Option (Block T)

/-- Modulus of `size_t` arithmetic. -/
def SIZE_MOD : Nat := 18446744073709551616

/-- Value of `__gnu_cxx::__numeric_traits<ptrdiff_t>::__max`. -/
def PTRDIFF_MAX : Nat := 9223372036854775807

/-- What the code asks of the element type `T`: `sizeof(T)` and the value of
`__alloc_traits<std::allocator<T>>::max_size(std::allocator<T>())`. -/
structure ElemType where
  sizeof_T : Nat
  max_alloc : Nat
deriving DecidableEq, Repr

/-- The `int` element type on a 64-bit target. -/
def intType : ElemType := ⟨4, 2305843009213693951⟩

/-- A character-string element type (`sizeof` 32) on a 64-bit target. -/
def stringType : ElemType := ⟨32, 288230376151711743⟩

/-! ## Memory primitives -/

/-- Number of slots of the block `p` points to (0 for `nullptr`). -/
def blockLen {T : Type} (p : Ptr T) : Nat :=
  match p with
  | none => 0
  | some b => b.length

/-- Content of slot `i` of the block behind `p`: `none` when the slot is raw,
outside the block, or `p` is `nullptr`. -/
def slot {T : Type} (p : Ptr T) (i : Nat) : Option T :=
  match p with
  | none => none
  | some b => (b[i]?).join

/-- Allocation `operator new(n * sizeof(T), align)`: a fresh block of `n` raw
slots. -/
def alloc {T : Type} (n : Nat) : Ptr T := some (List.replicate n none)

/-- Read of `p[i]`. -/
def read {T : Type} (p : Ptr T) (i : Nat) : Except Err T :=
  match slot p i with
  | some x => .ok x
  | none => .error .undefined_behaviour

/-- Placement construction `new(&p[i]) T{x}`. -/
def construct {T : Type} (p : Ptr T) (i : Nat) (x : T) : Except Err (Ptr T) :=
  match p with
  | none => .error .undefined_behaviour
  | some b => if i < b.length then .ok (some (b.set i (some x))) else .error .undefined_behaviour

/-- Destructor call `p[i].~T()`. -/
def destroy {T : Type} (p : Ptr T) (i : Nat) : Except Err (Ptr T) :=
  match p with
  | none => .error .undefined_behaviour
  | some b =>
    match slot (some b) i with
    | some _ => .ok (some (b.set i none))
    | none => .error .undefined_behaviour

/-- Loop `for (; i < i + k; ++i) new(&p[i]) T{value};` with `k` iterations left. -/
def construct_range {T : Type} (value : T) : Nat → Nat → Ptr T → Except Err (Ptr T)
  | 0, _, p => .ok p
  | k + 1, i, p =>
    match construct p i value with
    | .error e => .error e
    | .ok p' => construct_range value k (i + 1) p'

/-- Loop `for (; i < i + k; ++i) new(&dst[i]) T{src[i]};` with `k` iterations left. -/
def copy_range {T : Type} (src : Ptr T) : Nat → Nat → Ptr T → Except Err (Ptr T)
  | 0, _, dst => .ok dst
  | k + 1, i, dst =>
    match read src i with
    | .error e => .error e
    | .ok x =>
      match construct dst i x with
      | .error e => .error e
      | .ok dst' => copy_range src k (i + 1) dst'

/-- Loop `for (; i < i + k; ++i) p[i].~T();` with `k` iterations left. -/
def destroy_range {T : Type} : Nat → Nat → Ptr T → Except Err (Ptr T)
  | 0, _, p => .ok p
  | k + 1, i, p =>
    match destroy p i with
    | .error e => .error e
    | .ok p' => destroy_range k (i + 1) p'

/-- Outcome of a construction loop inside a `try` block when the copy
constructor of `T` may throw: the loop ran to its end, or the constructor threw
at index `i`, the slots before `i` being built. -/
inductive LoopOutcome (T : Type) where
  | finished (p : Ptr T)
  | thrown (p : Ptr T) (i : Nat)
deriving DecidableEq, Repr

/-- Loop `for (; i < i + k; ++i) new(&dst[i]) T{src[i]};` with `k` iterations
left, for an element type whose copy constructor throws on the values `x` with
`throws x`. -/
def copy_range_throwing {T : Type} (throws : T → Bool) (src : Ptr T) :
    Nat → Nat → Ptr T → Except Err (LoopOutcome T)
  | 0, _, dst => .ok (.finished dst)
  | k + 1, i, dst =>
    match read src i with
    | .error e => .error e
    | .ok x =>
      if throws x then .ok (.thrown dst i)
      else
        match construct dst i x with
        | .error e => .error e
        | .ok dst' => copy_range_throwing throws src k (i + 1) dst'

/-! ## The container -/

/-- The members of `Vector<T>`, in declaration order. -/
structure Vector (T : Type) where
  capacity_ : Nat
  size_ : Nat
  data_ : Ptr T
deriving DecidableEq, Repr

namespace Vector

variable {T : Type}

/-- Source function `Vector<T>::max_size`. -/
def max_size (E : ElemType) : Nat :=
  let max_for_type := PTRDIFF_MAX / E.sizeof_T
  let max_alloc := E.max_alloc
  min max_for_type max_alloc

/-- Source function `Vector<T>::Vector()`. -/
def empty_ctor : Vector T := { size_ := 0, capacity_ := 0, data_ := none }

/-- Source function `Vector<T>::size`. -/
def size (v : Vector T) : Nat := v.size_

/-- Source function `Vector<T>::capacity`. -/
def capacity (v : Vector T) : Nat := v.capacity_

/-- Source function `Vector<T>::operator[]`. -/
def index (v : Vector T) (i : Nat) : Except Err T := read v.data_ i

/-- Source function `Vector<T>::reserve`. -/
def reserve (E : ElemType) (v : Vector T) (new_cap : Nat) : Except Err (Vector T) :=
  if new_cap ≤ max_size E then
    let tmpData : Ptr T := alloc new_cap
    match copy_range v.data_ v.size_ 0 tmpData with
    | .error e => .error e
    | .ok tmpData => .ok { v with capacity_ := new_cap, data_ := tmpData }
  else .error .assertion_failed

/-- Source function `Vector<T>::relocate`. -/
def relocate (E : ElemType) (v : Vector T) : Except Err (Vector T) :=
  let tmpCapacity := v.capacity_
  let tmpCapacity := if tmpCapacity = 0 then 1 else tmpCapacity
  let tmpCapacity := min (tmpCapacity * 2 % SIZE_MOD) (max_size E)
  reserve E v tmpCapacity

/-- Source function `Vector<T>::push_back(const T&)`. -/
def push_back (E : ElemType) (v : Vector T) (element : T) : Except Err (Vector T) :=
  if (v.size_ + 1) % SIZE_MOD ≤ max_size E then
    match (if v.capacity_ ≤ (v.size_ + 1) % SIZE_MOD then relocate E v else .ok v) with
    | .error e => .error e
    | .ok v =>
      match construct v.data_ v.size_ element with
      | .error e => .error e
      | .ok d => .ok { v with data_ := d, size_ := (v.size_ + 1) % SIZE_MOD }
  else .error .assertion_failed

/-- Source function `Vector<T>::push_back(T&&)`: both branches of the `is_copy_constructible`
test construct the same value in the slot. -/
def push_back_move (E : ElemType) (is_copy_constructible : Bool) (v : Vector T) (value : T) :
    Except Err (Vector T) :=
  if (v.size_ + 1) % SIZE_MOD ≤ max_size E then
    match (if v.capacity_ ≤ (v.size_ + 1) % SIZE_MOD then relocate E v else .ok v) with
    | .error e => .error e
    | .ok v =>
      match (if is_copy_constructible then construct v.data_ v.size_ value
             else construct v.data_ v.size_ value) with
      | .error e => .error e
      | .ok d => .ok { v with data_ := d, size_ := (v.size_ + 1) % SIZE_MOD }
  else .error .assertion_failed

/-- Successive `push_back` calls, one per entry of `xs`, in order. -/
def push_all (E : ElemType) (v : Vector T) : List T → Except Err (Vector T)
  | [] => .ok v
  | x :: xs =>
    match push_back E v x with
    | .error e => .error e
    | .ok v' => push_all E v' xs

/-- Source function `Vector<T>::Vector(size_t n, const T& value)`.  The loop
`for (size_ = 0; size_ < n; ++size_)` runs `n` times and leaves `size_ == n`;
the statement `++size_` follows it. -/
def fill_ctor (E : ElemType) (n : Nat) (value : T) : Except Err (Vector T) :=
  if n ≤ max_size E then
    let capacity_ := n
    let data_ : Ptr T := alloc capacity_
    match construct_range value n 0 data_ with
    | .error e => .error e
    | .ok data_ =>
      let size_ := n
      .ok { capacity_ := capacity_, size_ := (size_ + 1) % SIZE_MOD, data_ := data_ }
  else .error .assertion_failed

/-- Source function `Vector<T>::Vector(const Vector<T>&)`.  The loop
`for (size_ = 0; size_ < other.size_; ++size_)` leaves `size_ == other.size_`;
the statement `++size_` follows it. -/
def copy_ctor (E : ElemType) (other : Vector T) : Except Err (Vector T) :=
  if other.size ≤ max_size E then
    let capacity_ := other.capacity_
    let data_ : Ptr T := alloc capacity_
    match copy_range other.data_ other.size_ 0 data_ with
    | .error e => .error e
    | .ok data_ =>
      let size_ := other.size_
      .ok { capacity_ := capacity_, size_ := (size_ + 1) % SIZE_MOD, data_ := data_ }
  else .error .assertion_failed

/-- Source function `Vector<T>::Vector(Vector<T>&&)`.  The member `data_` of the object under
construction has no initialiser: its value before the `std::swap` is
`indeterminate`.  Returns the new object and `other` as the call leaves it. -/
def move_ctor (E : ElemType) (indeterminate : Ptr T) (other : Vector T) :
    Except Err (Vector T × Vector T) :=
  if other.size ≤ max_size E then
    let size_ := other.size_
    let capacity_ := other.capacity_
    .ok ({ capacity_ := capacity_, size_ := size_, data_ := other.data_ },
         { other with data_ := indeterminate })
  else .error .assertion_failed

/-- Source function `Vector<T>::operator=(Vector&&)` on two distinct objects.  Returns the
assigned object and `other` as the call leaves it. -/
def move_assign (E : ElemType) (v other : Vector T) : Except Err (Vector T × Vector T) :=
  if other.size ≤ max_size E then
    .ok ({ v with size_ := other.size_, capacity_ := other.capacity_, data_ := other.data_ },
         { other with data_ := v.data_ })
  else .error .assertion_failed

/-- Source function `Vector<T>::at` (both overloads). -/
def at_ (v : Vector T) (pos : Nat) : Except Err T :=
  if pos ≥ v.size_ then read v.data_ pos else .error .assertion_failed

/-- Source function `Vector<T>::resize(size_t count, const T& value)`. -/
def resize_value (E : ElemType) (v : Vector T) (count : Nat) (value : T) :
    Except Err (Vector T) :=
  if count ≤ max_size E then
    if count < v.size_ then
      match destroy_range (v.size_ - count) count v.data_ with
      | .error e => .error e
      | .ok d => .ok { v with data_ := d, size_ := count }
    else if count > v.size_ then
      if count > v.capacity_ then
        let tmpData : Ptr T := alloc count
        match copy_range v.data_ v.size_ 0 tmpData with
        | .error e => .error e
        | .ok tmpData =>
          match construct_range value (count - v.size_) v.size_ tmpData with
          | .error e => .error e
          | .ok tmpData => .ok { capacity_ := count, size_ := count, data_ := tmpData }
      else
        match construct_range value (count - v.size_) v.size_ v.data_ with
        | .error e => .error e
        | .ok d => .ok { capacity_ := count, size_ := count, data_ := d }
    else .ok v
  else .error .assertion_failed

/-- Source function `Vector<T>::resize(size_t count)`; `dflt` is the value of `T{}`. -/
def resize (E : ElemType) (dflt : T) (v : Vector T) (count : Nat) : Except Err (Vector T) :=
  if count ≤ max_size E then
    if count < v.size_ then
      match destroy_range (v.size_ - count) count v.data_ with
      | .error e => .error e
      | .ok d => .ok { v with data_ := d, size_ := count }
    else if count > v.size_ then
      if count > v.capacity_ then
        let tmpData : Ptr T := alloc count
        match copy_range v.data_ v.size_ 0 tmpData with
        | .error e => .error e
        | .ok tmpData =>
          match construct_range dflt (count - v.size_) v.size_ tmpData with
          | .error e => .error e
          | .ok tmpData => .ok { capacity_ := count, size_ := count, data_ := tmpData }
      else
        match construct_range dflt (count - v.size_) v.size_ v.data_ with
        | .error e => .error e
        | .ok d => .ok { capacity_ := count, size_ := count, data_ := d }
    else .ok v
  else .error .assertion_failed

/-- Source function `Vector<T>::empty`. -/
def empty (v : Vector T) : Bool := v.size_ == 0

/-- Source function `Vector<T>::data` (both overloads). -/
def data (v : Vector T) : Ptr T :=
  if v.size_ = 0 then none else v.data_

/-- Source function `Vector<T>::shrink_to_fit`. -/
def shrink_to_fit (v : Vector T) : Except Err (Vector T) :=
  let tmpData : Ptr T := alloc v.size_
  match copy_range v.data_ v.size_ 0 tmpData with
  | .error e => .error e
  | .ok tmpData => .ok { v with capacity_ := v.size_, data_ := tmpData }

/-- Source function `Vector<T>::clear`. -/
def clear (v : Vector T) : Except Err (Vector T) :=
  match destroy_range v.size_ 0 v.data_ with
  | .error e => .error e
  | .ok _ => .ok { v with size_ := 0, capacity_ := 0, data_ := none }

/-- Source function `Vector<T>::pop_back`. -/
def pop_back (v : Vector T) : Except Err (Vector T) :=
  match destroy v.data_ ((v.size_ + SIZE_MOD - 1) % SIZE_MOD) with
  | .error e => .error e
  | .ok d =>
    let v : Vector T := { v with data_ := d, size_ := (v.size_ + SIZE_MOD - 1) % SIZE_MOD }
    if v.size_ < v.capacity_ / 4 then shrink_to_fit v else .ok v

/-- Source function `Vector<T>::assign(size_t count, const T& value)`. -/
def assign (E : ElemType) (v : Vector T) (count : Nat) (value : T) : Except Err (Vector T) :=
  if count ≤ max_size E then
    let tmpData : Ptr T := alloc count
    match construct_range value count 0 tmpData with
    | .error e => .error e
    | .ok tmpData =>
      match clear v with
      | .error e => .error e
      | .ok v => .ok { v with capacity_ := count, data_ := tmpData, size_ := count }
  else .error .assertion_failed

/-- Source function `Vector<T>::swap` on two distinct objects: the three
`std::swap` calls in order.  Returns the object and `other` as the call leaves
them. -/
def swap (v other : Vector T) : Vector T × Vector T :=
  let (v, other) := (({ v with data_ := other.data_ } : Vector T),
    ({ other with data_ := v.data_ } : Vector T))
  let (v, other) := (({ v with capacity_ := other.capacity_ } : Vector T),
    ({ other with capacity_ := v.capacity_ } : Vector T))
  ({ v with size_ := other.size_ }, { other with size_ := v.size_ })

/-- Result of copy assignment: the assigned object, and whether its `data_`
points to a block that `delete []` has already released. -/
structure Assigned (T : Type) where
  vec : Vector T
  data_released : Bool
deriving DecidableEq, Repr

/-- Source function `Vector<T>::operator=(const Vector&)` on two distinct
objects, for an element type whose copy constructor throws (an exception
derived from `std::exception`) on the values `x` with `throws x`.  In the
`catch` block the statements `~tmpData[j];` apply `operator~` to built elements
and change no state, `delete [] tmpData` releases the block, and control then
leaves the `catch` block and continues with `clear()`. -/
def copy_assign (E : ElemType) (throws : T → Bool) (v other : Vector T) :
    Except Err (Assigned T) :=
  if other.size ≤ max_size E then
    let tmpData : Ptr T := alloc other.capacity_
    match copy_range_throwing throws other.data_ other.size_ 0 tmpData with
    | .error e => .error e
    | .ok outcome =>
      let (tmpData, released) :=
        match outcome with
        | .finished p => (p, false)
        | .thrown p _ => (p, true)
      match clear v with
      | .error e => .error e
      | .ok v =>
        .ok { vec := { v with capacity_ := other.capacity, data_ := tmpData, size_ := other.size },
              data_released := released }
  else .error .assertion_failed

/-- Representation invariant of §3: the live elements fit the capacity and the
capacity fits the block behind `data_`. -/
def Inv (v : Vector T) : Prop := v.size_ ≤ v.capacity_ ∧ v.capacity_ ≤ blockLen v.data_

/-- Slots `[0, size_)` hold constructed elements. -/
def Live (v : Vector T) : Prop := ∀ j, j < v.size_ → (slot v.data_ j).isSome

/-- The live elements of `v`, read through `operator[]` in index order, are `xs`. -/
def Holds (v : Vector T) (xs : List T) : Prop :=
  v.size_ = xs.length ∧ ∀ i (h : i < xs.length), v.index i = .ok xs[i]

end Vector

/-! ## Facts about the memory primitives -/

theorem blockLen_alloc {T : Type} (n : Nat) : blockLen (alloc n : Ptr T) = n := by
  simp [blockLen, alloc]

theorem slot_alloc {T : Type} (n i : Nat) : slot (alloc n : Ptr T) i = none := by
  simp only [slot, alloc]
  by_cases h : i < n
  · simp [List.getElem?_replicate, h]
  · simp [List.getElem?_replicate, h]

theorem slot_of_blockLen_le {T : Type} (p : Ptr T) (i : Nat) (h : blockLen p ≤ i) :
    slot p i = none := by
  cases p with
  | none => rfl
  | some b =>
    simp only [blockLen] at h
    simp [slot, List.getElem?_eq_none h]

theorem read_of_slot {T : Type} (p : Ptr T) (i : Nat) (x : T) (h : slot p i = some x) :
    read p i = .ok x := by
  simp [read, h]

theorem read_ok_iff {T : Type} (p : Ptr T) (i : Nat) (x : T) :
    read p i = .ok x ↔ slot p i = some x := by
  unfold read
  cases h : slot p i <;> simp

theorem construct_ok {T : Type} (p : Ptr T) (i : Nat) (x : T) (h : i < blockLen p) :
    ∃ p', construct p i x = .ok p' ∧ blockLen p' = blockLen p ∧
      ∀ j, slot p' j = if j = i then some x else slot p j := by
  cases p with
  | none => simp [blockLen] at h
  | some b =>
    simp only [blockLen] at h
    refine ⟨some (b.set i (some x)), by simp [construct, h], by simp [blockLen], ?_⟩
    intro j
    by_cases hj : j = i
    · subst hj
      simp [slot, List.getElem?_set, h]
    · have hj' : ¬ i = j := fun e => hj e.symm
      simp [slot, List.getElem?_set, hj, hj']

theorem destroy_ok {T : Type} (p : Ptr T) (i : Nat) (y : T) (h : slot p i = some y) :
    ∃ p', destroy p i = .ok p' ∧ blockLen p' = blockLen p ∧
      ∀ j, slot p' j = if j = i then none else slot p j := by
  cases p with
  | none => simp [slot] at h
  | some b =>
    have hi : i < b.length := by
      by_contra hn
      rw [slot_of_blockLen_le (some b) i (by simpa [blockLen] using hn)] at h
      cases h
    refine ⟨some (b.set i none), by simp [destroy, h], by simp [blockLen], ?_⟩
    intro j
    by_cases hj : j = i
    · subst hj
      simp [slot, List.getElem?_set, hi]
    · have hj' : ¬ i = j := fun e => hj e.symm
      simp [slot, List.getElem?_set, hj, hj']

theorem construct_range_ok {T : Type} (x : T) (k : Nat) :
    ∀ (i : Nat) (p : Ptr T), i + k ≤ blockLen p →
      ∃ p', construct_range x k i p = .ok p' ∧ blockLen p' = blockLen p ∧
        ∀ j, slot p' j = if i ≤ j ∧ j < i + k then some x else slot p j := by
  induction k with
  | zero =>
    intro i p _
    refine ⟨p, rfl, rfl, ?_⟩
    intro j
    have : ¬ (i ≤ j ∧ j < i + 0) := by omega
    rw [if_neg this]
  | succ k ih =>
    intro i p h
    obtain ⟨p1, h1, hl1, hs1⟩ := construct_ok p i x (by omega)
    obtain ⟨p2, h2, hl2, hs2⟩ := ih (i + 1) p1 (by omega)
    refine ⟨p2, by simp [construct_range, h1, h2], by omega, ?_⟩
    intro j
    rw [hs2 j, hs1 j]
    by_cases a : j = i
    · subst a
      simp
    · by_cases b : i + 1 ≤ j ∧ j < i + 1 + k
      · have c : i ≤ j ∧ j < i + (k + 1) := by omega
        simp [b, c]
      · have c : ¬ (i ≤ j ∧ j < i + (k + 1)) := by omega
        simp [a, b, c]

theorem copy_range_ok {T : Type} (src : Ptr T) (k : Nat) :
    ∀ (i : Nat) (dst : Ptr T), (∀ j, i ≤ j → j < i + k → (slot src j).isSome) →
      i + k ≤ blockLen dst →
      ∃ dst', copy_range src k i dst = .ok dst' ∧ blockLen dst' = blockLen dst ∧
        ∀ j, slot dst' j = if i ≤ j ∧ j < i + k then slot src j else slot dst j := by
  induction k with
  | zero =>
    intro i dst _ _
    refine ⟨dst, rfl, rfl, ?_⟩
    intro j
    have : ¬ (i ≤ j ∧ j < i + 0) := by omega
    rw [if_neg this]
  | succ k ih =>
    intro i dst hsrc h
    obtain ⟨x, hx⟩ := Option.isSome_iff_exists.mp (hsrc i (by omega) (by omega))
    obtain ⟨p1, h1, hl1, hs1⟩ := construct_ok dst i x (by omega)
    obtain ⟨p2, h2, hl2, hs2⟩ :=
      ih (i + 1) p1 (fun j a b => hsrc j (by omega) (by omega)) (by omega)
    refine ⟨p2, by simp [copy_range, read_of_slot src i x hx, h1, h2], by omega, ?_⟩
    intro j
    rw [hs2 j, hs1 j]
    by_cases a : j = i
    · subst a
      simp [hx]
    · by_cases b : i + 1 ≤ j ∧ j < i + 1 + k
      · have c : i ≤ j ∧ j < i + (k + 1) := by omega
        simp [b, c]
      · have c : ¬ (i ≤ j ∧ j < i + (k + 1)) := by omega
        simp [a, b, c]

theorem destroy_range_ok {T : Type} (k : Nat) :
    ∀ (i : Nat) (p : Ptr T), (∀ j, i ≤ j → j < i + k → (slot p j).isSome) →
      ∃ p', destroy_range k i p = .ok p' ∧ blockLen p' = blockLen p ∧
        ∀ j, slot p' j = if i ≤ j ∧ j < i + k then none else slot p j := by
  induction k with
  | zero =>
    intro i p _
    refine ⟨p, rfl, rfl, ?_⟩
    intro j
    have : ¬ (i ≤ j ∧ j < i + 0) := by omega
    rw [if_neg this]
  | succ k ih =>
    intro i p hp
    obtain ⟨y, hy⟩ := Option.isSome_iff_exists.mp (hp i (by omega) (by omega))
    obtain ⟨p1, h1, hl1, hs1⟩ := destroy_ok p i y hy
    have hp1 : ∀ j, i + 1 ≤ j → j < i + 1 + k → (slot p1 j).isSome := by
      intro j a b
      rw [hs1 j]
      have : j ≠ i := by omega
      simpa [this] using hp j (by omega) (by omega)
    obtain ⟨p2, h2, hl2, hs2⟩ := ih (i + 1) p1 hp1
    refine ⟨p2, by simp [destroy_range, h1, h2], by omega, ?_⟩
    intro j
    rw [hs2 j, hs1 j]
    by_cases a : j = i
    · subst a
      simp
    · by_cases b : i + 1 ≤ j ∧ j < i + 1 + k
      · have c : i ≤ j ∧ j < i + (k + 1) := by omega
        simp [b, c]
      · have c : ¬ (i ≤ j ∧ j < i + (k + 1)) := by omega
        simp [a, b, c]

/-! ## Facts about the container operations -/

namespace Vector

variable {T : Type}

theorem max_size_le_ptrdiff (E : ElemType) : max_size E ≤ PTRDIFF_MAX := by
  unfold max_size
  exact le_trans (min_le_left _ _) (Nat.div_le_self _ _)

theorem Holds.live {v : Vector T} {xs : List T} (h : v.Holds xs) : v.Live := by
  intro j hj
  have hj' : j < xs.length := by rw [← h.1]; exact hj
  have := (read_ok_iff v.data_ j xs[j]).mp (h.2 j hj')
  simp [this]

theorem Holds.slot_eq {v : Vector T} {xs : List T} (h : v.Holds xs) (i : Nat)
    (hi : i < xs.length) : slot v.data_ i = some xs[i] :=
  (read_ok_iff v.data_ i xs[i]).mp (h.2 i hi)

theorem holds_of_slots {v : Vector T} {xs : List T} (h1 : v.size_ = xs.length)
    (h2 : ∀ i (h : i < xs.length), slot v.data_ i = some xs[i]) : v.Holds xs :=
  ⟨h1, fun i hi => read_of_slot v.data_ i xs[i] (h2 i hi)⟩

theorem reserve_ok (E : ElemType) (v : Vector T) (new_cap : Nat) (hl : v.Live)
    (h1 : v.size_ ≤ new_cap) (h2 : new_cap ≤ max_size E) :
    ∃ v', reserve E v new_cap = .ok v' ∧ v'.capacity_ = new_cap ∧ v'.size_ = v.size_ ∧
      blockLen v'.data_ = new_cap ∧
      ∀ j, slot v'.data_ j = if j < v.size_ then slot v.data_ j else none := by
  obtain ⟨d, hd, hlen, hs⟩ := copy_range_ok v.data_ v.size_ 0 (alloc new_cap)
    (fun j _ hj => hl j (by omega)) (by rw [blockLen_alloc]; omega)
  refine ⟨{ v with capacity_ := new_cap, data_ := d }, ?_, rfl, rfl, ?_, ?_⟩
  · simp [reserve, h2, hd]
  · simpa [blockLen_alloc] using hlen
  · intro j
    have := hs j
    simpa [slot_alloc] using this

theorem push_back_ok (E : ElemType) (v : Vector T) (x : T) (hi : v.Inv) (hl : v.Live)
    (hm : v.size_ + 1 ≤ max_size E) :
    ∃ v', push_back E v x = .ok v' ∧ v'.size_ = v.size_ + 1 ∧ v'.Inv ∧
      (∀ j, j < v.size_ → slot v'.data_ j = slot v.data_ j) ∧
      slot v'.data_ v.size_ = some x ∧
      v'.capacity_ = (if v.capacity_ ≤ v.size_ + 1
        then min ((if v.capacity_ = 0 then 1 else v.capacity_) * 2) (max_size E)
        else v.capacity_) := by
  have hp := max_size_le_ptrdiff E
  have hmod : (v.size_ + 1) % SIZE_MOD = v.size_ + 1 := by
    unfold PTRDIFF_MAX at hp
    unfold SIZE_MOD
    omega
  by_cases hc : v.capacity_ ≤ v.size_ + 1
  · have hmul : (if v.capacity_ = 0 then 1 else v.capacity_) * 2 % SIZE_MOD
        = (if v.capacity_ = 0 then 1 else v.capacity_) * 2 := by
      unfold PTRDIFF_MAX at hp
      unfold SIZE_MOD
      split <;> omega
    have hge : v.size_ + 1 ≤
        min ((if v.capacity_ = 0 then 1 else v.capacity_) * 2) (max_size E) := by
      have := hi.1
      refine le_min ?_ hm
      split <;> omega
    obtain ⟨v1, hv1, hcap1, hsz1, hlen1, hs1⟩ :=
      reserve_ok E v (min ((if v.capacity_ = 0 then 1 else v.capacity_) * 2) (max_size E)) hl
        (le_trans (Nat.le_succ _) hge) (min_le_right _ _)
    obtain ⟨d, hd, hdl, hds⟩ := construct_ok v1.data_ v1.size_ x (by omega)
    rw [hsz1] at hd hds
    refine ⟨{ v1 with data_ := d, size_ := v.size_ + 1 }, ?_, rfl, ?_, ?_, ?_, ?_⟩
    · simp only [push_back, hmod, if_pos hm, if_pos hc, relocate, hmul, hv1, hd, hsz1]
    · exact ⟨by simp only [hcap1]; exact hge, by simp only [hdl, hlen1, hcap1]; exact le_refl _⟩
    · intro j hj
      show slot d j = _
      rw [hds j, if_neg (by omega), hs1 j, if_pos hj]
    · show slot d v.size_ = _
      rw [hds, if_pos rfl]
    · show v1.capacity_ = _
      rw [hcap1, if_pos hc]
  · have h1 := hi.1
    have h2 := hi.2
    obtain ⟨d, hd, hdl, hds⟩ := construct_ok v.data_ v.size_ x (by omega)
    refine ⟨{ v with data_ := d, size_ := v.size_ + 1 }, ?_, rfl, ?_, ?_, ?_, ?_⟩
    · simp only [push_back, hmod, if_pos hm, if_neg hc, hd]
    · exact ⟨by show v.size_ + 1 ≤ v.capacity_; omega, by show v.capacity_ ≤ blockLen d; omega⟩
    · intro j hj
      show slot d j = _
      rw [hds j, if_neg (by omega)]
    · show slot d v.size_ = _
      rw [hds, if_pos rfl]
    · show v.capacity_ = _
      rw [if_neg hc]

theorem push_back_step (E : ElemType) (v : Vector T) (ys : List T) (x : T) (hi : v.Inv)
    (hh : v.Holds ys) (hm : ys.length + 1 ≤ max_size E) :
    ∃ v', push_back E v x = .ok v' ∧ v'.Inv ∧ v'.Holds (ys ++ [x]) ∧
      v'.capacity_ = (if v.capacity_ ≤ ys.length + 1
        then min ((if v.capacity_ = 0 then 1 else v.capacity_) * 2) (max_size E)
        else v.capacity_) := by
  have hsz := hh.1
  obtain ⟨v', h1, h2, h3, h4, h5, h6⟩ := push_back_ok E v x hi hh.live (by omega)
  refine ⟨v', h1, h3, ?_, by rw [h6, hsz]⟩
  apply holds_of_slots
  · simp [h2, hsz]
  · intro i hlt
    have hlt' : i < ys.length + 1 := by simpa using hlt
    by_cases hc : i < ys.length
    · rw [h4 i (by omega), hh.slot_eq i hc, List.getElem_append_left hc]
    · have he : i = v.size_ := by omega
      subst he
      rw [h5]
      simp [hsz]

theorem push_all_append (E : ElemType) (xs : List T) (x : T) :
    ∀ v : Vector T, push_all E v (xs ++ [x]) =
      (match push_all E v xs with
       | .error e => .error e
       | .ok v' => push_back E v' x) := by
  induction xs with
  | nil =>
    intro v
    simp only [List.nil_append, push_all]
    cases push_back E v x <;> rfl
  | cons y ys ih =>
    intro v
    simp only [List.cons_append, push_all]
    cases push_back E v y with
    | error e => rfl
    | ok v' => exact ih v'

theorem holds_empty_ctor : (empty_ctor : Vector T).Holds [] :=
  ⟨rfl, fun i h => absurd h (Nat.not_lt_zero i)⟩

theorem inv_empty_ctor : (empty_ctor : Vector T).Inv := ⟨le_refl _, le_refl _⟩

theorem push_all_from_empty (E : ElemType) (xs : List T) (h : xs.length ≤ max_size E) :
    ∃ v, push_all E (empty_ctor : Vector T) xs = .ok v ∧ v.Inv ∧ v.Holds xs ∧
      v.capacity_ ≤ max_size E := by
  induction xs using List.reverseRecOn with
  | nil => exact ⟨empty_ctor, rfl, inv_empty_ctor, holds_empty_ctor, Nat.zero_le _⟩
  | append_singleton ys x ih =>
    have hlen : ys.length + 1 ≤ max_size E := by simpa using h
    obtain ⟨v, hv, hi, hh, hc⟩ := ih (by omega)
    obtain ⟨v', h1, h2, h3, h4⟩ := push_back_step E v ys x hi hh hlen
    refine ⟨v', ?_, h2, h3, ?_⟩
    · rw [push_all_append, hv]
      exact h1
    · rw [h4]
      split
      · exact min_le_right _ _
      · exact hc

theorem push_all_pow2 (E : ElemType) (xs : List T) (h0 : xs ≠ [])
    (h : 2 * xs.length ≤ max_size E) :
    ∃ v, push_all E (empty_ctor : Vector T) xs = .ok v ∧
      ∃ j, v.capacity_ = 2 ^ j ∧ xs.length < v.capacity_ ∧ v.capacity_ ≤ 2 * xs.length := by
  induction xs using List.reverseRecOn with
  | nil => exact absurd rfl h0
  | append_singleton ys x ih =>
    have hlen : 2 * (ys.length + 1) ≤ max_size E := by simpa using h
    obtain ⟨v, hv, hi, hh, _⟩ := push_all_from_empty E ys (by omega)
    obtain ⟨v', h1, _, _, h4⟩ := push_back_step E v ys x hi hh (by omega)
    have hrun : push_all E (empty_ctor : Vector T) (ys ++ [x]) = .ok v' := by
      rw [push_all_append, hv]
      exact h1
    refine ⟨v', hrun, ?_⟩
    simp only [List.length_append, List.length_singleton]
    by_cases hys : ys = []
    · subst hys
      have hv0 : v = empty_ctor := by
        have : (Except.ok empty_ctor : Except Err (Vector T)) = .ok v := hv
        exact (Except.ok.inj this).symm
      subst hv0
      simp only [empty_ctor, List.length_nil] at h4 hlen
      refine ⟨1, ?_, ?_, ?_⟩ <;> simp [h4] <;> omega
    · obtain ⟨w, hw, j, hj1, hj2, hj3⟩ := ih hys (by omega)
      have hwv : w = v := by
        rw [hw] at hv
        exact Except.ok.inj hv
      subst hwv
      by_cases hc : w.capacity_ ≤ ys.length + 1
      · have hne : w.capacity_ ≠ 0 := by omega
        rw [if_pos hc, if_neg hne] at h4
        have h5 : v'.capacity_ = w.capacity_ * 2 := by
          rw [h4]
          exact min_eq_left (by omega)
        refine ⟨j + 1, ?_, ?_, ?_⟩
        · rw [h5, hj1, pow_succ]
        · omega
        · omega
      · rw [if_neg hc] at h4
        exact ⟨j, by rw [h4, hj1], by omega, by omega⟩

/-! ## Growth by `push_back` -/

/-- C1: for every sequence `xs` of values whose length does not exceed
`max_size`, pushing the values one by one onto a default-constructed Vector
succeeds, leaves `size() == xs.length`, makes element `i` equal to the `i`-th
pushed value, and no push lowers `capacity()`. -/
theorem push_back_sequence (E : ElemType) (xs : List T) (h : xs.length ≤ max_size E) :
    ∃ v, push_all E (empty_ctor : Vector T) xs = .ok v ∧ v.size = xs.length ∧
      (∀ i (hi : i < xs.length), v.index i = .ok xs[i]) ∧
      ∀ n (hn : n < xs.length), ∃ a b,
        push_all E (empty_ctor : Vector T) (xs.take n) = .ok a ∧
        push_back E a xs[n] = .ok b ∧ a.capacity ≤ b.capacity := by
  obtain ⟨v, hv, _, hh, _⟩ := push_all_from_empty E xs h
  refine ⟨v, hv, hh.1, hh.2, ?_⟩
  intro n hn
  have hlen : (xs.take n).length = n := by
    rw [List.length_take]
    exact min_eq_left (by omega)
  obtain ⟨a, ha, hi, hha, hc⟩ := push_all_from_empty E (xs.take n) (by omega)
  obtain ⟨b, hb, _, _, hcap⟩ := push_back_step E a (xs.take n) xs[n] hi hha (by omega)
  refine ⟨a, b, ha, hb, ?_⟩
  show a.capacity_ ≤ b.capacity_
  rw [hcap]
  split
  · refine le_min ?_ hc
    split <;> omega
  · exact le_refl _

/-- C1, at three pushes of `int` values. -/
theorem push_back_sequence_witness :
    [10, 20, 30].length ≤ max_size intType ∧
    ∃ v, push_all intType (empty_ctor : Vector Nat) [10, 20, 30] = .ok v ∧ v.size = 3 ∧
      (∀ i (hi : i < 3), v.index i = .ok ([10, 20, 30].get ⟨i, hi⟩)) ∧
      ∀ n (hn : n < 3), ∃ a b,
        push_all intType (empty_ctor : Vector Nat) ([10, 20, 30].take n) = .ok a ∧
        push_back intType a ([10, 20, 30].get ⟨n, hn⟩) = .ok b ∧ a.capacity ≤ b.capacity :=
  ⟨by decide, push_back_sequence intType [10, 20, 30] (by decide)⟩

/-- C2 as stated fails: the first push already takes the capacity to 2, above
the power of two `2 ^ 0 ≥ 1`, and pushing 1,2,3,4,5 gives the capacity sequence
2,4,4,8,8 rather than 1,2,4,4,8. -/
theorem push_back_capacity_counterexample :
    (∃ v, push_all intType (empty_ctor : Vector Nat) [1] = .ok v ∧
      1 ≤ 2 ^ 0 ∧ 2 ^ 0 < v.capacity) ∧
    List.map (fun k => Option.map capacity
        (push_all intType (empty_ctor : Vector Nat) (List.take k [1, 2, 3, 4, 5])).toOption)
      [1, 2, 3, 4, 5] = [some 2, some 4, some 4, some 8, some 8] ∧
    List.map (fun k => Option.map capacity
        (push_all intType (empty_ctor : Vector Nat) (List.take k [1, 2, 3, 4, 5])).toOption)
      [1, 2, 3, 4, 5] ≠ [some 1, some 2, some 4, some 4, some 8] := by
  refine ⟨⟨⟨2, 1, some [some 1, none]⟩, rfl, by decide, by decide⟩, by rfl, ?_⟩
  have e : List.map (fun k => Option.map capacity
        (push_all intType (empty_ctor : Vector Nat) (List.take k [1, 2, 3, 4, 5])).toOption)
      [1, 2, 3, 4, 5] = [some 2, some 4, some 4, some 8, some 8] := by rfl
  rw [e]
  decide

/-- C2, amended: after `k ≥ 1` successive pushes onto a default-constructed
Vector, with `2 * k ≤ max_size`, `size() == k`, the elements are the pushed
values in order, and `capacity()` is the least power of two strictly greater
than `k`. -/
theorem push_back_capacity_pow2 (E : ElemType) (xs : List T) (h0 : 0 < xs.length)
    (h : 2 * xs.length ≤ max_size E) :
    ∃ v, push_all E (empty_ctor : Vector T) xs = .ok v ∧ v.size = xs.length ∧
      (∀ i (hi : i < xs.length), v.index i = .ok xs[i]) ∧
      ∃ j, v.capacity = 2 ^ j ∧ xs.length < 2 ^ j ∧ ∀ i, xs.length < 2 ^ i → 2 ^ j ≤ 2 ^ i := by
  have hne : xs ≠ [] := by
    intro e
    rw [e] at h0
    exact Nat.lt_irrefl 0 h0
  obtain ⟨v, hv, j, hj1, hj2, hj3⟩ := push_all_pow2 E xs hne h
  obtain ⟨w, hw, _, hh, _⟩ := push_all_from_empty E xs (by omega)
  have hwv : w = v := by
    rw [hw] at hv
    exact Except.ok.inj hv
  subst hwv
  refine ⟨w, hw, hh.1, hh.2, j, hj1, by rw [← hj1]; exact hj2, ?_⟩
  intro i hi
  rcases le_or_lt j i with hji | hij
  · exact Nat.pow_le_pow_right (by decide) hji
  · have h1 : 2 ^ (i + 1) ≤ 2 ^ j := Nat.pow_le_pow_right (by decide) hij
    rw [pow_succ, ← hj1] at h1
    omega

/-- C2 amended, at the pushes 1,2,3,4,5. -/
theorem push_back_capacity_pow2_witness :
    0 < [1, 2, 3, 4, 5].length ∧ 2 * [1, 2, 3, 4, 5].length ≤ max_size intType ∧
    ∃ v, push_all intType (empty_ctor : Vector Nat) [1, 2, 3, 4, 5] = .ok v ∧ v.size = 5 ∧
      (∀ i (hi : i < 5), v.index i = .ok ([1, 2, 3, 4, 5].get ⟨i, hi⟩)) ∧
      ∃ j, v.capacity = 2 ^ j ∧ 5 < 2 ^ j ∧ ∀ i, 5 < 2 ^ i → 2 ^ j ≤ 2 ^ i :=
  ⟨by decide, by decide,
    push_back_capacity_pow2 intType [1, 2, 3, 4, 5] (by decide) (by decide)⟩

theorem push_back_move_eq (E : ElemType) (b : Bool) (v : Vector T) (x : T) :
    push_back_move E b v x = push_back E v x := by
  cases b <;> simp [push_back_move, push_back]

/-- C3 as stated fails: a Vector with `size() == 1` and `capacity() == 2` (the
state after one push onto an empty Vector) has a free slot, and `push_back`
(either overload) relocates it to capacity 4. -/
theorem push_back_spare_slot_counterexample :
    push_all intType (empty_ctor : Vector Nat) [7] = .ok ⟨2, 1, some [some 7, none]⟩ ∧
    size (⟨2, 1, some [some 7, none]⟩ : Vector Nat) <
      capacity (⟨2, 1, some [some 7, none]⟩ : Vector Nat) ∧
    (∃ v', push_back intType (⟨2, 1, some [some 7, none]⟩ : Vector Nat) 8 = .ok v' ∧
      v'.capacity ≠ capacity (⟨2, 1, some [some 7, none]⟩ : Vector Nat)) ∧
    (∃ v', push_back_move intType true (⟨2, 1, some [some 7, none]⟩ : Vector Nat) 8 = .ok v' ∧
      v'.capacity ≠ capacity (⟨2, 1, some [some 7, none]⟩ : Vector Nat)) :=
  ⟨rfl, by decide,
    ⟨⟨4, 2, some [some 7, some 8, none, none]⟩, rfl, by decide⟩,
    ⟨⟨4, 2, some [some 7, some 8, none, none]⟩, rfl, by decide⟩⟩

/-- C3, amended: for every Vector satisfying the representation invariant with
at least two free slots (`size() + 1 < capacity()`) and `size() + 1 ≤ max_size`,
`push_back` succeeds and leaves `capacity()` unchanged, in both overloads. -/
theorem push_back_keeps_capacity (E : ElemType) (b : Bool) (v : Vector T) (x : T)
    (hi : v.Inv) (hsp : v.size + 1 < v.capacity) (hm : v.size + 1 ≤ max_size E) :
    (∃ v', push_back E v x = .ok v' ∧ v'.capacity = v.capacity) ∧
    (∃ v', push_back_move E b v x = .ok v' ∧ v'.capacity = v.capacity) := by
  have hp := max_size_le_ptrdiff E
  have hsp' : v.size_ + 1 < v.capacity_ := hsp
  have hm' : v.size_ + 1 ≤ max_size E := hm
  have hmod : (v.size_ + 1) % SIZE_MOD = v.size_ + 1 := by
    unfold PTRDIFF_MAX at hp
    unfold SIZE_MOD
    omega
  have hc : ¬ v.capacity_ ≤ v.size_ + 1 := by omega
  have h2 := hi.2
  obtain ⟨d, hd, _, _⟩ := construct_ok v.data_ v.size_ x (by omega)
  have key : push_back E v x = .ok { v with data_ := d, size_ := v.size_ + 1 } := by
    simp only [push_back, hmod, if_pos hm', if_neg hc, hd]
  refine ⟨⟨{ v with data_ := d, size_ := v.size_ + 1 }, key, rfl⟩,
    ⟨{ v with data_ := d, size_ := v.size_ + 1 }, ?_, rfl⟩⟩
  rw [push_back_move_eq]
  exact key

/-- C3 amended, at a Vector with one element and capacity 4. -/
theorem push_back_keeps_capacity_witness :
    Inv (⟨4, 1, some [some 7, none, none, none]⟩ : Vector Nat) ∧
    size (⟨4, 1, some [some 7, none, none, none]⟩ : Vector Nat) + 1 <
      capacity (⟨4, 1, some [some 7, none, none, none]⟩ : Vector Nat) ∧
    size (⟨4, 1, some [some 7, none, none, none]⟩ : Vector Nat) + 1 ≤ max_size intType ∧
    (∃ v', push_back intType (⟨4, 1, some [some 7, none, none, none]⟩ : Vector Nat) 8 = .ok v' ∧
      v'.capacity = 4) ∧
    (∃ v', push_back_move intType false (⟨4, 1, some [some 7, none, none, none]⟩ : Vector Nat) 8
        = .ok v' ∧ v'.capacity = 4) :=
  ⟨⟨by decide, by decide⟩, by decide, by decide,
    push_back_keeps_capacity intType false ⟨4, 1, some [some 7, none, none, none]⟩ 8
      ⟨by decide, by decide⟩ (by decide) (by decide)⟩

/-! ## Checked access -/

theorem at_fails_iff (v : Vector T) (pos : Nat) :
    v.at_ pos = .error .assertion_failed ↔ pos < v.size := by
  unfold at_ size read
  by_cases h : pos ≥ v.size_
  · rw [if_pos h]
    have : ¬ pos < v.size_ := by omega
    cases slot v.data_ pos <;> simp [this]
  · rw [if_neg h]
    have : pos < v.size_ := by omega
    simp [this]

/-- C4 on the code: on the Vector that `Vector(3, "x")` returns, and on the
three-element Vector it is meant to return, `at(5)` passes its check and reads
outside the block instead of signalling out-of-range, while `at(0)`, a valid
index, is the call that is rejected. -/
theorem at_check_inverted_example :
    fill_ctor stringType 3 "x" = .ok ⟨3, 4, some [some "x", some "x", some "x"]⟩ ∧
    at_ (⟨3, 4, some [some "x", some "x", some "x"]⟩ : Vector String) 5
      = .error .undefined_behaviour ∧
    at_ (⟨3, 4, some [some "x", some "x", some "x"]⟩ : Vector String) 0
      = .error .assertion_failed ∧
    at_ (⟨3, 3, some [some "x", some "x", some "x"]⟩ : Vector String) 5
      = .error .undefined_behaviour ∧
    at_ (⟨3, 3, some [some "x", some "x", some "x"]⟩ : Vector String) 0
      = .error .assertion_failed :=
  ⟨rfl, rfl, rfl, rfl, rfl⟩

/-! ## Constructors -/

theorem fill_ctor_ok (E : ElemType) (n : Nat) (x : T) (h : n ≤ max_size E) :
    ∃ v, fill_ctor E n x = .ok v ∧ v.size = n + 1 ∧ v.capacity = n ∧
      blockLen v.data_ = n ∧ ∀ j, slot v.data_ j = if j < n then some x else none := by
  have hp := max_size_le_ptrdiff E
  have hmod : (n + 1) % SIZE_MOD = n + 1 := by
    unfold PTRDIFF_MAX at hp
    unfold SIZE_MOD
    omega
  obtain ⟨d, hd, hlen, hs⟩ := construct_range_ok x n 0 (alloc n) (by rw [blockLen_alloc]; omega)
  refine ⟨⟨n, n + 1, d⟩, ?_, rfl, rfl, ?_, ?_⟩
  · simp only [fill_ctor, if_pos h, hd, hmod]
  · simpa [blockLen_alloc] using hlen
  · intro j
    have := hs j
    simpa [slot_alloc] using this

/-- C5 on the code: `Vector(3, "x")` returns a Vector whose three slots hold
"x" and whose `capacity()` is 3, but whose `size()` is 4, one more than the
number of elements constructed; an empty fill gives `size() == 1`. -/
theorem fill_ctor_size_example :
    fill_ctor stringType 3 "x" = .ok ⟨3, 4, some [some "x", some "x", some "x"]⟩ ∧
    size (⟨3, 4, some [some "x", some "x", some "x"]⟩ : Vector String) ≠ 3 ∧
    index (⟨3, 4, some [some "x", some "x", some "x"]⟩ : Vector String) 3
      = .error .undefined_behaviour ∧
    fill_ctor intType 0 (0 : Nat) = .ok ⟨0, 1, some []⟩ :=
  ⟨rfl, by decide, rfl, rfl⟩

theorem copy_ctor_ok (E : ElemType) (other : Vector T) (hl : other.Live) (hi : other.Inv)
    (h : other.capacity_ ≤ max_size E) :
    ∃ v, copy_ctor E other = .ok v ∧ v.size = other.size + 1 ∧ v.capacity = other.capacity ∧
      ∀ j, j < other.size → v.index j = other.index j := by
  have hp := max_size_le_ptrdiff E
  have h1 := hi.1
  have hmod : (other.size_ + 1) % SIZE_MOD = other.size_ + 1 := by
    unfold PTRDIFF_MAX at hp
    unfold SIZE_MOD
    omega
  obtain ⟨d, hd, _, hs⟩ := copy_range_ok other.data_ other.size_ 0 (alloc other.capacity_)
    (fun j _ hj => hl j (by omega)) (by rw [blockLen_alloc]; omega)
  refine ⟨⟨other.capacity_, other.size_ + 1, d⟩, ?_, rfl, rfl, ?_⟩
  · have hsz : other.size ≤ max_size E := by
      show other.size_ ≤ max_size E
      omega
    simp only [copy_ctor, if_pos hsz, hd, hmod]
  · intro j hj
    have hj' : j < other.size_ := hj
    have := hs j
    simp only [Nat.zero_le, true_and, Nat.zero_add, hj', if_true] at this
    simp only [index, read, this]

/-- C6 on the code: copying the Vector obtained by one push (size 1, capacity
2) gives a Vector of `size() == 2`; copying a full Vector of one element gives
`size() == 2` with `capacity() == 1`; copying the empty Vector gives
`size() == 1`. -/
theorem copy_ctor_size_example :
    copy_ctor intType (⟨2, 1, some [some 7, none]⟩ : Vector Nat)
      = .ok ⟨2, 2, some [some 7, none]⟩ ∧
    size (⟨2, 2, some [some 7, none]⟩ : Vector Nat)
      ≠ size (⟨2, 1, some [some 7, none]⟩ : Vector Nat) ∧
    copy_ctor intType (⟨1, 1, some [some 7]⟩ : Vector Nat) = .ok ⟨1, 2, some [some 7]⟩ ∧
    ¬ size (⟨1, 2, some [some 7]⟩ : Vector Nat) ≤ capacity (⟨1, 2, some [some 7]⟩ : Vector Nat) ∧
    copy_ctor intType (empty_ctor : Vector Nat) = .ok ⟨0, 1, some []⟩ :=
  ⟨rfl, by decide, rfl, by decide, rfl⟩

theorem move_ctor_ok (E : ElemType) (p : Ptr T) (other : Vector T)
    (h : other.size ≤ max_size E) :
    move_ctor E p other = .ok (other, { other with data_ := p }) := by
  simp only [move_ctor, if_pos h]

theorem move_assign_ok (E : ElemType) (v other : Vector T) (h : other.size ≤ max_size E) :
    move_assign E v other = .ok (other, { other with data_ := v.data_ }) := by
  simp only [move_assign, if_pos h]

/-- C7 on the code: after move construction and after move assignment from a
Vector of size 1 and capacity 2, the destination has the source's size,
capacity and block, but the source still reports `size() == 1` and
`capacity() == 2`. -/
theorem move_source_not_reset_example :
    (∃ dst src, move_ctor intType none (⟨2, 1, some [some 7, none]⟩ : Vector Nat)
        = .ok (dst, src) ∧
      dst = ⟨2, 1, some [some 7, none]⟩ ∧ src.size = 1 ∧ src.capacity = 2 ∧ src.data_ = none) ∧
    (∃ dst src, move_assign intType (empty_ctor : Vector Nat) ⟨2, 1, some [some 7, none]⟩
        = .ok (dst, src) ∧
      dst = ⟨2, 1, some [some 7, none]⟩ ∧ src.size = 1 ∧ src.capacity = 2 ∧ src.data_ = none) :=
  ⟨⟨_, _, rfl, rfl, rfl, rfl, rfl⟩, ⟨_, _, rfl, rfl, rfl, rfl, rfl⟩⟩

/-! ## `reserve` -/

/-- C8 on the code: on the Vector left by pushing 1,2,3 (size 3, capacity 4),
`reserve(3)` lowers `capacity()` to 3 and `reserve(2)` writes the third element
past the end of the new two-slot block. -/
theorem reserve_below_capacity_example :
    push_all intType (empty_ctor : Vector Nat) [1, 2, 3]
      = .ok ⟨4, 3, some [some 1, some 2, some 3, none]⟩ ∧
    reserve intType (⟨4, 3, some [some 1, some 2, some 3, none]⟩ : Vector Nat) 3
      = .ok ⟨3, 3, some [some 1, some 2, some 3]⟩ ∧
    capacity (⟨3, 3, some [some 1, some 2, some 3]⟩ : Vector Nat)
      ≠ capacity (⟨4, 3, some [some 1, some 2, some 3, none]⟩ : Vector Nat) ∧
    reserve intType (⟨4, 3, some [some 1, some 2, some 3, none]⟩ : Vector Nat) 2
      = .error .undefined_behaviour :=
  ⟨rfl, rfl, by decide, rfl⟩

/-- C9: for every Vector satisfying the representation invariant, holding the
elements `xs`, and every `new_cap` with `capacity() < new_cap ≤ max_size`,
`reserve(new_cap)` succeeds, `capacity()` becomes `new_cap`, `size()` is
unchanged, and the elements are still `xs`, index by index. -/
theorem reserve_grows (E : ElemType) (v : Vector T) (xs : List T) (new_cap : Nat)
    (hi : v.Inv) (hh : v.Holds xs) (h1 : v.capacity < new_cap) (h2 : new_cap ≤ max_size E) :
    ∃ v', reserve E v new_cap = .ok v' ∧ v'.capacity = new_cap ∧ v'.size = v.size ∧
      v'.Holds xs ∧ ∀ i, i < v.size → v'.index i = v.index i := by
  have h1' : v.capacity_ < new_cap := h1
  have hsz := hi.1
  obtain ⟨v', hv', hcap, hsize, _, hs⟩ := reserve_ok E v new_cap hh.live (by omega) h2
  have hpt : ∀ i, i < v.size_ → slot v'.data_ i = slot v.data_ i := by
    intro i hlt
    rw [hs i, if_pos hlt]
  refine ⟨v', hv', hcap, hsize, ?_, ?_⟩
  · apply holds_of_slots
    · rw [hsize]
      exact hh.1
    · intro i hlt
      rw [hpt i (by rw [hh.1]; exact hlt)]
      exact hh.slot_eq i hlt
  · intro i hlt
    simp only [index, read, hpt i hlt]

/-- C9, at a Vector of three elements and capacity 4 reserved to 6. -/
theorem reserve_grows_witness :
    Inv (⟨4, 3, some [some 1, some 2, some 3, none]⟩ : Vector Nat) ∧
    Holds (⟨4, 3, some [some 1, some 2, some 3, none]⟩ : Vector Nat) [1, 2, 3] ∧
    capacity (⟨4, 3, some [some 1, some 2, some 3, none]⟩ : Vector Nat) < 6 ∧
    6 ≤ max_size intType ∧
    ∃ v', reserve intType (⟨4, 3, some [some 1, some 2, some 3, none]⟩ : Vector Nat) 6 = .ok v' ∧
      v'.capacity = 6 ∧
      v'.size = size (⟨4, 3, some [some 1, some 2, some 3, none]⟩ : Vector Nat) ∧
      v'.Holds [1, 2, 3] ∧
      ∀ i, i < size (⟨4, 3, some [some 1, some 2, some 3, none]⟩ : Vector Nat) →
        v'.index i = index (⟨4, 3, some [some 1, some 2, some 3, none]⟩ : Vector Nat) i :=
  ⟨⟨by decide, by decide⟩, holds_of_slots rfl (by decide), by decide, by decide,
    reserve_grows intType ⟨4, 3, some [some 1, some 2, some 3, none]⟩ [1, 2, 3] 6
      ⟨by decide, by decide⟩ (holds_of_slots rfl (by decide)) (by decide) (by decide)⟩

/-! ## `resize` -/

theorem resize_eq_resize_value (E : ElemType) (dflt : T) (v : Vector T) (count : Nat) :
    resize E dflt v count = resize_value E v count dflt := rfl

theorem resize_value_ok (E : ElemType) (v : Vector T) (count : Nat) (x : T) (hi : v.Inv)
    (hl : v.Live) (hc : count ≤ max_size E) :
    ∃ v', resize_value E v count x = .ok v' ∧ v'.size_ = count ∧ v'.Inv ∧
      (∀ i, i < count → slot v'.data_ i = if i < v.size_ then slot v.data_ i else some x) ∧
      v'.capacity_ = (if v.size_ < count then count else v.capacity_) := by
  have hsz := hi.1
  have hbl := hi.2
  by_cases hlt : count < v.size_
  · obtain ⟨d, hd, hlen, hs⟩ := destroy_range_ok (v.size_ - count) count v.data_
      (fun j _ hj => hl j (by omega))
    refine ⟨{ v with data_ := d, size_ := count }, ?_, rfl, ?_, ?_, ?_⟩
    · simp only [resize_value, if_pos hc, if_pos hlt, hd]
    · exact ⟨by show count ≤ v.capacity_; omega, by show v.capacity_ ≤ blockLen d; omega⟩
    · intro i hic
      show slot d i = _
      rw [hs i, if_neg (by omega), if_pos (by omega)]
    · show v.capacity_ = _
      rw [if_neg (by omega)]
  · by_cases hgt : count > v.size_
    · by_cases hcap : count > v.capacity_
      · obtain ⟨t1, ht1, hlen1, hs1⟩ := copy_range_ok v.data_ v.size_ 0 (alloc count)
          (fun j _ hj => hl j (by omega)) (by rw [blockLen_alloc]; omega)
        rw [blockLen_alloc] at hlen1
        obtain ⟨t2, ht2, hlen2, hs2⟩ := construct_range_ok x (count - v.size_) v.size_ t1
          (by omega)
        refine ⟨⟨count, count, t2⟩, ?_, rfl, ?_, ?_, ?_⟩
        · simp only [resize_value, if_pos hc, if_neg hlt, if_pos hgt, if_pos hcap, ht1, ht2]
        · exact ⟨le_refl _, by show count ≤ blockLen t2; omega⟩
        · intro i hic
          show slot t2 i = _
          rw [hs2 i, hs1 i]
          by_cases hiv : i < v.size_
          · rw [if_neg (by omega), if_pos (by omega), if_pos hiv]
          · rw [if_pos (by omega), if_neg hiv]
        · show count = _
          rw [if_pos hgt]
      · obtain ⟨d, hd, hlen, hs⟩ := construct_range_ok x (count - v.size_) v.size_ v.data_
          (by omega)
        refine ⟨⟨count, count, d⟩, ?_, rfl, ?_, ?_, ?_⟩
        · simp only [resize_value, if_pos hc, if_neg hlt, if_pos hgt, if_neg hcap, hd]
        · exact ⟨le_refl _, by show count ≤ blockLen d; omega⟩
        · intro i hic
          show slot d i = _
          rw [hs i]
          by_cases hiv : i < v.size_
          · rw [if_neg (by omega), if_pos hiv]
          · rw [if_pos (by omega), if_neg hiv]
        · show count = _
          rw [if_pos hgt]
    · refine ⟨v, ?_, by omega, hi, ?_, ?_⟩
      · simp only [resize_value, if_pos hc, if_neg hlt, if_neg hgt]
      · intro i hic
        rw [if_pos (by omega)]
      · rw [if_neg (by omega)]

theorem getElem?_take_append_replicate (old : List T) (count i : Nat) (x : T)
    (hi : i < count) :
    ((old ++ List.replicate (count - old.length) x).take count)[i]?
      = if i < old.length then old[i]? else some x := by
  rw [List.getElem?_take_of_lt hi, List.getElem?_append]
  by_cases h : i < old.length
  · rw [if_pos h, if_pos h]
  · rw [if_neg h, if_neg h, List.getElem?_replicate, if_pos (by omega)]

theorem length_take_append_replicate (old : List T) (count : Nat) (x : T) :
    ((old ++ List.replicate (count - old.length) x).take count).length = count := by
  rw [List.length_take, List.length_append, List.length_replicate]
  omega

/-- C10: for every Vector satisfying the representation invariant and holding
the elements `old`, every `count ≤ max_size` and every value `x`,
`resize(count, x)` succeeds, leaves `size() == count`, and the elements are the
first `count` entries of `old` followed by `count - size()` copies of `x`; the
same holds of `resize(count)` with the default value of `T` in place of `x`. -/
theorem resize_elements (E : ElemType) (v : Vector T) (old : List T) (count : Nat) (x : T)
    (hi : v.Inv) (hh : v.Holds old) (hc : count ≤ max_size E) :
    (∃ v', resize_value E v count x = .ok v' ∧ v'.size = count ∧
      v'.Holds ((old ++ List.replicate (count - v.size) x).take count)) ∧
    (∃ v', resize E x v count = .ok v' ∧ v'.size = count ∧
      v'.Holds ((old ++ List.replicate (count - v.size) x).take count)) := by
  have key : ∃ v', resize_value E v count x = .ok v' ∧ v'.size = count ∧
      v'.Holds ((old ++ List.replicate (count - v.size) x).take count) := by
    obtain ⟨v', hv', hsize, _, hs, _⟩ := resize_value_ok E v count x hi hh.live hc
    have hold : v.size = old.length := hh.1
    refine ⟨v', hv', hsize, ?_⟩
    rw [hold]
    apply holds_of_slots
    · rw [hsize, length_take_append_replicate]
    · intro i hlt
      have hic : i < count := by
        rw [length_take_append_replicate] at hlt
        exact hlt
      have e := getElem?_take_append_replicate old count i x hic
      rw [List.getElem?_eq_getElem hlt] at e
      rw [hs i hic, e]
      have hold' : v.size_ = old.length := hh.1
      by_cases hio : i < old.length
      · rw [if_pos (by omega), if_pos hio, hh.slot_eq i hio, List.getElem?_eq_getElem hio]
      · rw [if_neg (by omega), if_neg hio]
  exact ⟨key, by rw [resize_eq_resize_value]; exact key⟩

/-- C10, at a Vector holding 1,2,3 with capacity 4, grown to five elements. -/
theorem resize_elements_witness :
    Inv (⟨4, 3, some [some 1, some 2, some 3, none]⟩ : Vector Nat) ∧
    Holds (⟨4, 3, some [some 1, some 2, some 3, none]⟩ : Vector Nat) [1, 2, 3] ∧
    5 ≤ max_size intType ∧
    (∃ v', resize_value intType (⟨4, 3, some [some 1, some 2, some 3, none]⟩ : Vector Nat) 5 9
        = .ok v' ∧ v'.size = 5 ∧
      v'.Holds (([1, 2, 3] ++ List.replicate
        (5 - size (⟨4, 3, some [some 1, some 2, some 3, none]⟩ : Vector Nat)) 9).take 5)) ∧
    (∃ v', resize intType 9 (⟨4, 3, some [some 1, some 2, some 3, none]⟩ : Vector Nat) 5
        = .ok v' ∧ v'.size = 5 ∧
      v'.Holds (([1, 2, 3] ++ List.replicate
        (5 - size (⟨4, 3, some [some 1, some 2, some 3, none]⟩ : Vector Nat)) 9).take 5)) :=
  ⟨⟨by decide, by decide⟩, holds_of_slots rfl (by decide), by decide,
    resize_elements intType ⟨4, 3, some [some 1, some 2, some 3, none]⟩ [1, 2, 3] 5 9
      ⟨by decide, by decide⟩ (holds_of_slots rfl (by decide)) (by decide)⟩

/-- C11 on the code: on a Vector of size 1 and capacity 4 (`reserve(4)` then
one push), `resize(2)` and `resize(2, 9)` build the new element in the existing
four-slot block and then set `capacity_` to 2. -/
theorem resize_within_capacity_example :
    reserve intType (empty_ctor : Vector Nat) 4 = .ok ⟨4, 0, some [none, none, none, none]⟩ ∧
    push_back intType (⟨4, 0, some [none, none, none, none]⟩ : Vector Nat) 5
      = .ok ⟨4, 1, some [some 5, none, none, none]⟩ ∧
    resize intType 0 (⟨4, 1, some [some 5, none, none, none]⟩ : Vector Nat) 2
      = .ok ⟨2, 2, some [some 5, some 0, none, none]⟩ ∧
    resize_value intType (⟨4, 1, some [some 5, none, none, none]⟩ : Vector Nat) 2 9
      = .ok ⟨2, 2, some [some 5, some 9, none, none]⟩ ∧
    capacity (⟨2, 2, some [some 5, some 9, none, none]⟩ : Vector Nat)
      ≠ capacity (⟨4, 1, some [some 5, none, none, none]⟩ : Vector Nat) ∧
    blockLen (⟨2, 2, some [some 5, some 9, none, none]⟩ : Vector Nat).data_ = 4 :=
  ⟨rfl, rfl, rfl, rfl, by decide, rfl⟩

/-! ## `shrink_to_fit`, `clear` and `pop_back` -/

theorem shrink_to_fit_ok (v : Vector T) (hl : v.Live) :
    ∃ v', shrink_to_fit v = .ok v' ∧ v'.capacity_ = v.size_ ∧ v'.size_ = v.size_ ∧
      blockLen v'.data_ = v.size_ ∧
      ∀ j, slot v'.data_ j = if j < v.size_ then slot v.data_ j else none := by
  obtain ⟨d, hd, hlen, hs⟩ := copy_range_ok v.data_ v.size_ 0 (alloc v.size_)
    (fun j _ hj => hl j (by omega)) (by rw [blockLen_alloc]; omega)
  refine ⟨{ v with capacity_ := v.size_, data_ := d }, ?_, rfl, rfl, ?_, ?_⟩
  · simp [shrink_to_fit, hd]
  · simpa [blockLen_alloc] using hlen
  · intro j
    have := hs j
    simpa [slot_alloc] using this

theorem clear_ok (v : Vector T) (hl : v.Live) : clear v = .ok ⟨0, 0, none⟩ := by
  obtain ⟨d, hd, _, _⟩ := destroy_range_ok v.size_ 0 v.data_ (fun j _ hj => hl j (by omega))
  simp [clear, hd]

theorem pop_back_ok (v : Vector T) (hl : v.Live) (h0 : 0 < v.size_)
    (hrep : v.size_ < SIZE_MOD) :
    ∃ v', pop_back v = .ok v' ∧ v'.size_ = v.size_ - 1 ∧
      (∀ j, j < v.size_ - 1 → slot v'.data_ j = slot v.data_ j) ∧
      v'.capacity_ = (if v.size_ - 1 < v.capacity_ / 4 then v.size_ - 1 else v.capacity_) ∧
      (v.Inv → v'.Inv) := by
  have hmod : (v.size_ + SIZE_MOD - 1) % SIZE_MOD = v.size_ - 1 := by
    unfold SIZE_MOD at hrep ⊢
    omega
  obtain ⟨y, hy⟩ := Option.isSome_iff_exists.mp (hl (v.size_ - 1) (by omega))
  obtain ⟨d, hd, hdl, hds⟩ := destroy_ok v.data_ (v.size_ - 1) y hy
  have hkeep : ∀ j, j < v.size_ - 1 → slot d j = slot v.data_ j := by
    intro j hj
    rw [hds j, if_neg (by omega)]
  by_cases hq : v.size_ - 1 < v.capacity_ / 4
  · have hlw : Live ({ v with data_ := d, size_ := v.size_ - 1 } : Vector T) := by
      intro j hj
      have hj' : j < v.size_ - 1 := hj
      show (slot d j).isSome
      rw [hkeep j hj']
      exact hl j (by omega)
    obtain ⟨w, hw, hwc, hws, hwl, hwd⟩ := shrink_to_fit_ok _ hlw
    refine ⟨w, ?_, hws, ?_, ?_, ?_⟩
    · simp only [pop_back, hmod, hd, if_pos hq]
      exact hw
    · intro j hj
      rw [hwd j]
      show (if j < v.size_ - 1 then slot d j else none) = _
      rw [if_pos hj, hkeep j hj]
    · rw [hwc, if_pos hq]
    · intro _
      exact ⟨by rw [hws, hwc], by rw [hwc, hwl]⟩
  · refine ⟨{ v with data_ := d, size_ := v.size_ - 1 }, ?_, rfl, hkeep, ?_, ?_⟩
    · simp only [pop_back, hmod, hd, if_neg hq]
    · show v.capacity_ = _
      rw [if_neg hq]
    · intro hi
      have h1 := hi.1
      have h2 := hi.2
      exact ⟨by show v.size_ - 1 ≤ v.capacity_; omega, by show v.capacity_ ≤ blockLen d; omega⟩

/-- C12: for every non-empty Vector holding the elements `xs`, `pop_back`
succeeds, `size()` decreases by one, and the elements at the indices below the
new size keep their values and order (they are `xs` without its last entry),
whether or not the shrink is triggered. -/
theorem pop_back_removes_last (v : Vector T) (xs : List T) (hh : v.Holds xs)
    (h0 : 0 < v.size) (hrep : v.size < SIZE_MOD) :
    ∃ v', pop_back v = .ok v' ∧ v'.size + 1 = v.size ∧ v'.Holds xs.dropLast ∧
      ∀ i, i < v'.size → v'.index i = v.index i := by
  have h0' : 0 < v.size_ := h0
  obtain ⟨v', hv', hsz, hkeep, _, _⟩ := pop_back_ok v hh.live h0' hrep
  have hlen : v.size_ = xs.length := hh.1
  refine ⟨v', hv', by show v'.size_ + 1 = v.size_; omega, ?_, ?_⟩
  · apply holds_of_slots
    · rw [hsz, List.length_dropLast, hlen]
    · intro i hi
      have hi' : i < xs.length - 1 := by
        rw [List.length_dropLast] at hi
        exact hi
      rw [hkeep i (by omega), List.getElem_dropLast, hh.slot_eq i (by omega)]
  · intro i hi
    have hi' : i < v'.size_ := hi
    simp only [index, read, hkeep i (by omega)]

/-- C12, at a Vector holding 1,2,3 with capacity 4. -/
theorem pop_back_removes_last_witness :
    Holds (⟨4, 3, some [some 1, some 2, some 3, none]⟩ : Vector Nat) [1, 2, 3] ∧
    0 < size (⟨4, 3, some [some 1, some 2, some 3, none]⟩ : Vector Nat) ∧
    size (⟨4, 3, some [some 1, some 2, some 3, none]⟩ : Vector Nat) < SIZE_MOD ∧
    ∃ v', pop_back (⟨4, 3, some [some 1, some 2, some 3, none]⟩ : Vector Nat) = .ok v' ∧
      v'.size + 1 = size (⟨4, 3, some [some 1, some 2, some 3, none]⟩ : Vector Nat) ∧
      v'.Holds [1, 2, 3].dropLast ∧
      ∀ i, i < v'.size →
        v'.index i = index (⟨4, 3, some [some 1, some 2, some 3, none]⟩ : Vector Nat) i :=
  ⟨holds_of_slots rfl (by decide), by decide, by decide,
    pop_back_removes_last ⟨4, 3, some [some 1, some 2, some 3, none]⟩ [1, 2, 3]
      (holds_of_slots rfl (by decide)) (by decide) (by decide)⟩

/-- C13 as stated fails: on a Vector of size 2 and capacity 5 (`reserve(5)`
then two pushes), `pop_back` leaves size 1 with `4 * 1 < 5`, yet the test
`size_ < capacity_ / 4` is `1 < 1` and `capacity()` stays 5. -/
theorem pop_back_quarter_counterexample :
    reserve intType (empty_ctor : Vector Nat) 5
      = .ok ⟨5, 0, some [none, none, none, none, none]⟩ ∧
    push_all intType (⟨5, 0, some [none, none, none, none, none]⟩ : Vector Nat) [1, 2]
      = .ok ⟨5, 2, some [some 1, some 2, none, none, none]⟩ ∧
    size (⟨5, 2, some [some 1, some 2, none, none, none]⟩ : Vector Nat)
      ≤ capacity (⟨5, 2, some [some 1, some 2, none, none, none]⟩ : Vector Nat) ∧
    ∃ v', pop_back (⟨5, 2, some [some 1, some 2, none, none, none]⟩ : Vector Nat) = .ok v' ∧
      4 * v'.size < capacity (⟨5, 2, some [some 1, some 2, none, none, none]⟩ : Vector Nat) ∧
      v'.capacity ≠ v'.size :=
  ⟨rfl, rfl, by decide, ⟨5, 1, some [some 1, none, none, none, none]⟩, rfl, by decide, by decide⟩

/-- C13, amended: for every non-empty Vector whose live slots are constructed,
`pop_back` succeeds; if the new size is below `capacity() / 4` in integer
division, that is `4 * size + 4 ≤ capacity`, then `capacity() == size()`
afterwards, and otherwise `capacity()` is unchanged. -/
theorem pop_back_capacity (v : Vector T) (xs : List T) (hh : v.Holds xs)
    (h0 : 0 < v.size) (hrep : v.size < SIZE_MOD) :
    ∃ v', pop_back v = .ok v' ∧
      (v'.size < v.capacity / 4 ↔ 4 * v'.size + 4 ≤ v.capacity) ∧
      (4 * v'.size + 4 ≤ v.capacity → v'.capacity = v'.size) ∧
      (v.capacity < 4 * v'.size + 4 → v'.capacity = v.capacity) := by
  have h0' : 0 < v.size_ := h0
  obtain ⟨v', hv', hsz, _, hcap, _⟩ := pop_back_ok v hh.live h0' hrep
  refine ⟨v', hv', ?_, ?_, ?_⟩
  · show v'.size_ < v.capacity_ / 4 ↔ 4 * v'.size_ + 4 ≤ v.capacity_
    omega
  · intro h
    have h' : 4 * v'.size_ + 4 ≤ v.capacity_ := h
    show v'.capacity_ = v'.size_
    rw [hcap, if_pos (by omega), hsz]
  · intro h
    have h' : v.capacity_ < 4 * v'.size_ + 4 := h
    show v'.capacity_ = v.capacity_
    rw [hcap, if_neg (by omega)]

/-- C13 amended, at a Vector of size 2 and capacity 8, which shrinks to 1. -/
theorem pop_back_capacity_witness :
    Holds (⟨8, 2, some [some 1, some 2, none, none, none, none, none, none]⟩ : Vector Nat)
      [1, 2] ∧
    0 < size (⟨8, 2, some [some 1, some 2, none, none, none, none, none, none]⟩ : Vector Nat) ∧
    size (⟨8, 2, some [some 1, some 2, none, none, none, none, none, none]⟩ : Vector Nat)
      < SIZE_MOD ∧
    ∃ v', pop_back (⟨8, 2, some [some 1, some 2, none, none, none, none, none, none]⟩ :
        Vector Nat) = .ok v' ∧
      (v'.size < capacity (⟨8, 2, some [some 1, some 2, none, none, none, none, none, none]⟩ :
          Vector Nat) / 4 ↔
        4 * v'.size + 4 ≤ capacity
          (⟨8, 2, some [some 1, some 2, none, none, none, none, none, none]⟩ : Vector Nat)) ∧
      (4 * v'.size + 4 ≤ capacity
          (⟨8, 2, some [some 1, some 2, none, none, none, none, none, none]⟩ : Vector Nat) →
        v'.capacity = v'.size) ∧
      (capacity (⟨8, 2, some [some 1, some 2, none, none, none, none, none, none]⟩ :
          Vector Nat) < 4 * v'.size + 4 →
        v'.capacity = capacity
          (⟨8, 2, some [some 1, some 2, none, none, none, none, none, none]⟩ : Vector Nat)) :=
  ⟨holds_of_slots rfl (by decide), by decide, by decide,
    pop_back_capacity ⟨8, 2, some [some 1, some 2, none, none, none, none, none, none]⟩ [1, 2]
      (holds_of_slots rfl (by decide)) (by decide) (by decide)⟩

/-! ## The invariant `size() <= capacity()` -/

/-- C14 on the code: `Vector(2, 9)` has `size() == 3` over `capacity() == 2`,
and the copy of a full two-element Vector has `size() == 3` over
`capacity() == 2`: two constructors return objects that break
`size() <= capacity()`. -/
theorem size_le_capacity_broken_example :
    fill_ctor intType 2 (9 : Nat) = .ok ⟨2, 3, some [some 9, some 9]⟩ ∧
    ¬ size (⟨2, 3, some [some 9, some 9]⟩ : Vector Nat)
        ≤ capacity (⟨2, 3, some [some 9, some 9]⟩ : Vector Nat) ∧
    Inv (⟨2, 2, some [some 7, some 8]⟩ : Vector Nat) ∧
    copy_ctor intType (⟨2, 2, some [some 7, some 8]⟩ : Vector Nat)
      = .ok ⟨2, 3, some [some 7, some 8]⟩ ∧
    ¬ size (⟨2, 3, some [some 7, some 8]⟩ : Vector Nat)
        ≤ capacity (⟨2, 3, some [some 7, some 8]⟩ : Vector Nat) :=
  ⟨rfl, by decide, ⟨by decide, by decide⟩, rfl, by decide⟩

/-! ## Copy assignment -/

/-- C15 on the code: the target holds 5 (size 1, capacity 2), the source holds
7 and 8, and copying 8 throws.  The assignment still clears the target and
adopts the released temporary block: afterwards `size() == 2`,
`capacity() == 2` and `data_` points to the released block. -/
theorem copy_assign_throw_example :
    copy_assign intType (fun x => x == 8) (⟨2, 1, some [some 5, none]⟩ : Vector Nat)
        ⟨2, 2, some [some 7, some 8]⟩
      = .ok ⟨⟨2, 2, some [some 7, none]⟩, true⟩ ∧
    size (⟨2, 2, some [some 7, none]⟩ : Vector Nat)
      ≠ size (⟨2, 1, some [some 5, none]⟩ : Vector Nat) ∧
    index (⟨2, 2, some [some 7, none]⟩ : Vector Nat) 0
      ≠ index (⟨2, 1, some [some 5, none]⟩ : Vector Nat) 0 ∧
    copy_assign intType (fun _ => false) (⟨2, 1, some [some 5, none]⟩ : Vector Nat)
        ⟨2, 2, some [some 7, some 8]⟩
      = .ok ⟨⟨2, 2, some [some 7, some 8]⟩, false⟩ := by
  refine ⟨rfl, by decide, ?_, rfl⟩
  intro h
  have h' : (Except.ok 7 : Except Err Nat) = .ok 5 := h
  exact absurd (Except.ok.inj h') (by decide)

/-! ## `assign`, `shrink_to_fit`, `clear`, `swap` -/

/-- C16: for every Vector whose live slots are constructed, every
`count ≤ max_size` and every value `x`, `assign(count, x)` succeeds and replaces
the contents: `size() == count`, `capacity() == count`, and the elements are
`count` copies of `x`. -/
theorem assign_fill (E : ElemType) (v : Vector T) (old : List T) (count : Nat) (x : T)
    (hh : v.Holds old) (hc : count ≤ max_size E) :
    ∃ v', assign E v count x = .ok v' ∧ v'.size = count ∧ v'.capacity = count ∧
      v'.Holds (List.replicate count x) ∧ ∀ i, i < count → v'.index i = .ok x := by
  obtain ⟨d, hd, _, hs⟩ := construct_range_ok x count 0 (alloc count)
    (by rw [blockLen_alloc]; omega)
  have hslot : ∀ i, i < count → slot d i = some x := by
    intro i hi
    rw [hs i, if_pos (by omega)]
  refine ⟨⟨count, count, d⟩, ?_, rfl, rfl, ?_, ?_⟩
  · simp only [assign, if_pos hc, hd, clear_ok v hh.live]
  · apply holds_of_slots
    · simp
    · intro i hi
      have hi' : i < count := by simpa using hi
      show slot d i = _
      rw [hslot i hi', List.getElem_replicate]
  · intro i hi
    exact read_of_slot d i x (hslot i hi)

/-- C16, at a Vector holding 1,2,3 assigned two copies of 9. -/
theorem assign_fill_witness :
    Holds (⟨4, 3, some [some 1, some 2, some 3, none]⟩ : Vector Nat) [1, 2, 3] ∧
    2 ≤ max_size intType ∧
    ∃ v', assign intType (⟨4, 3, some [some 1, some 2, some 3, none]⟩ : Vector Nat) 2 9
        = .ok v' ∧ v'.size = 2 ∧ v'.capacity = 2 ∧
      v'.Holds (List.replicate 2 9) ∧ ∀ i, i < 2 → v'.index i = .ok 9 :=
  ⟨holds_of_slots rfl (by decide), by decide,
    assign_fill intType ⟨4, 3, some [some 1, some 2, some 3, none]⟩ [1, 2, 3] 2 9
      (holds_of_slots rfl (by decide)) (by decide)⟩

/-- C17: for every Vector holding the elements `xs`, `shrink_to_fit()`
succeeds, `capacity() == size()` afterwards, `size()` is unchanged, and every
live element keeps its index and value. -/
theorem shrink_to_fit_exact (v : Vector T) (xs : List T) (hh : v.Holds xs) :
    ∃ v', shrink_to_fit v = .ok v' ∧ v'.capacity = v'.size ∧ v'.size = v.size ∧
      v'.Holds xs ∧ ∀ i, i < v.size → v'.index i = v.index i := by
  obtain ⟨v', hv', hcap, hsz, _, hs⟩ := shrink_to_fit_ok v hh.live
  have hpt : ∀ i, i < v.size_ → slot v'.data_ i = slot v.data_ i := by
    intro i hi
    rw [hs i, if_pos hi]
  refine ⟨v', hv', by show v'.capacity_ = v'.size_; rw [hcap, hsz], hsz, ?_, ?_⟩
  · apply holds_of_slots
    · rw [hsz]
      exact hh.1
    · intro i hi
      rw [hpt i (by rw [hh.1]; exact hi)]
      exact hh.slot_eq i hi
  · intro i hi
    simp only [index, read, hpt i hi]

/-- C17, at a Vector holding 1,2,3 with capacity 4. -/
theorem shrink_to_fit_exact_witness :
    Holds (⟨4, 3, some [some 1, some 2, some 3, none]⟩ : Vector Nat) [1, 2, 3] ∧
    ∃ v', shrink_to_fit (⟨4, 3, some [some 1, some 2, some 3, none]⟩ : Vector Nat) = .ok v' ∧
      v'.capacity = v'.size ∧
      v'.size = size (⟨4, 3, some [some 1, some 2, some 3, none]⟩ : Vector Nat) ∧
      v'.Holds [1, 2, 3] ∧
      ∀ i, i < size (⟨4, 3, some [some 1, some 2, some 3, none]⟩ : Vector Nat) →
        v'.index i = index (⟨4, 3, some [some 1, some 2, some 3, none]⟩ : Vector Nat) i :=
  ⟨holds_of_slots rfl (by decide),
    shrink_to_fit_exact ⟨4, 3, some [some 1, some 2, some 3, none]⟩ [1, 2, 3]
      (holds_of_slots rfl (by decide))⟩

/-- C18: for every Vector holding elements `xs`, `clear()` succeeds and
afterwards `size() == 0`, `capacity() == 0`, `empty()` returns true and
`data()` is null. -/
theorem clear_empties (v : Vector T) (xs : List T) (hh : v.Holds xs) :
    ∃ v', clear v = .ok v' ∧ v'.size = 0 ∧ v'.capacity = 0 ∧ v'.empty = true ∧
      v'.data = none ∧ v'.data_ = none :=
  ⟨⟨0, 0, none⟩, clear_ok v hh.live, rfl, rfl, rfl, rfl, rfl⟩

/-- C18, at a Vector holding 1,2,3 with capacity 4. -/
theorem clear_empties_witness :
    Holds (⟨4, 3, some [some 1, some 2, some 3, none]⟩ : Vector Nat) [1, 2, 3] ∧
    ∃ v', clear (⟨4, 3, some [some 1, some 2, some 3, none]⟩ : Vector Nat) = .ok v' ∧
      v'.size = 0 ∧ v'.capacity = 0 ∧ v'.empty = true ∧ v'.data = none ∧ v'.data_ = none :=
  ⟨holds_of_slots rfl (by decide),
    clear_empties ⟨4, 3, some [some 1, some 2, some 3, none]⟩ [1, 2, 3]
      (holds_of_slots rfl (by decide))⟩

/-- C19: for every pair of Vectors `a` and `b`, `a.swap(b)` leaves `a` with
the prior size, capacity and block of `b` and `b` with those of `a`, every
element read through `operator[]` included; swapping twice restores both. -/
theorem swap_exchanges (a b : Vector T) :
    swap a b = (b, a) ∧
    (swap a b).1.size = b.size ∧ (swap a b).1.capacity = b.capacity ∧
    (∀ i, (swap a b).1.index i = b.index i) ∧
    (swap a b).2.size = a.size ∧ (swap a b).2.capacity = a.capacity ∧
    (∀ i, (swap a b).2.index i = a.index i) ∧
    swap (swap a b).1 (swap a b).2 = (a, b) := by
  have h : ∀ x y : Vector T, swap x y = (y, x) := by
    intro x y
    cases x
    cases y
    rfl
  rw [h a b]
  exact ⟨rfl, rfl, rfl, fun _ => rfl, rfl, rfl, fun _ => rfl, h b a⟩

/-- C20: for every Vector satisfying the representation invariant with
`size() + 1 ≤ max_size`, `push_back` (either overload) succeeds; the capacity
becomes `min (2 * max capacity 1) max_size` when `capacity ≤ size + 1` and is
unchanged otherwise; afterwards `size() ≤ capacity()` still holds, the capacity
fits the block, and the new element is the one in slot `size()` of that block. -/
theorem push_back_preserves_inv (E : ElemType) (b : Bool) (v : Vector T) (xs : List T)
    (x : T) (hi : v.Inv) (hh : v.Holds xs) (hm : v.size + 1 ≤ max_size E) :
    ∃ v', push_back E v x = .ok v' ∧ push_back_move E b v x = .ok v' ∧
      v'.size = v.size + 1 ∧ v'.size ≤ v'.capacity ∧ v'.capacity ≤ blockLen v'.data_ ∧
      v'.index v.size = .ok x ∧
      v'.capacity = (if v.capacity ≤ v.size + 1 then min (2 * max v.capacity 1) (max_size E)
        else v.capacity) := by
  obtain ⟨v', h1, h2, h3, _, h5, h6⟩ := push_back_ok E v x hi hh.live hm
  refine ⟨v', h1, by rw [push_back_move_eq]; exact h1, h2, h3.1, h3.2,
    read_of_slot _ _ _ h5, ?_⟩
  show v'.capacity_ = if v.capacity_ ≤ v.size_ + 1
    then min (2 * max v.capacity_ 1) (max_size E) else v.capacity_
  rw [h6]
  have e : (if v.capacity_ = 0 then 1 else v.capacity_) * 2 = 2 * max v.capacity_ 1 := by
    by_cases h0 : v.capacity_ = 0
    · rw [if_pos h0, h0]
      rfl
    · rw [if_neg h0, max_eq_left (by omega), Nat.mul_comm]
  rw [e]

/-- C20, at a full Vector holding 1,2 with capacity 2. -/
theorem push_back_preserves_inv_witness :
    Inv (⟨2, 2, some [some 1, some 2]⟩ : Vector Nat) ∧
    Holds (⟨2, 2, some [some 1, some 2]⟩ : Vector Nat) [1, 2] ∧
    size (⟨2, 2, some [some 1, some 2]⟩ : Vector Nat) + 1 ≤ max_size intType ∧
    ∃ v', push_back intType (⟨2, 2, some [some 1, some 2]⟩ : Vector Nat) 3 = .ok v' ∧
      push_back_move intType true (⟨2, 2, some [some 1, some 2]⟩ : Vector Nat) 3 = .ok v' ∧
      v'.size = size (⟨2, 2, some [some 1, some 2]⟩ : Vector Nat) + 1 ∧
      v'.size ≤ v'.capacity ∧ v'.capacity ≤ blockLen v'.data_ ∧
      v'.index (size (⟨2, 2, some [some 1, some 2]⟩ : Vector Nat)) = .ok 3 ∧
      v'.capacity = (if capacity (⟨2, 2, some [some 1, some 2]⟩ : Vector Nat)
          ≤ size (⟨2, 2, some [some 1, some 2]⟩ : Vector Nat) + 1
        then min (2 * max (capacity (⟨2, 2, some [some 1, some 2]⟩ : Vector Nat)) 1)
          (max_size intType)
        else capacity (⟨2, 2, some [some 1, some 2]⟩ : Vector Nat)) :=
  ⟨⟨by decide, by decide⟩, holds_of_slots rfl (by decide), by decide,
    push_back_preserves_inv intType true ⟨2, 2, some [some 1, some 2]⟩ [1, 2] 3
      ⟨by decide, by decide⟩ (holds_of_slots rfl (by decide)) (by decide)⟩

/-! ## `push_back` followed by `pop_back` -/

/-- C21: for every Vector satisfying the representation invariant, holding the
elements `xs`, with `size() + 1 ≤ max_size`, and every value `x`,
`push_back(x)` followed by `pop_back()` both succeed and leave `size()` and the
element sequence as they were before the push. -/
theorem push_back_pop_back (E : ElemType) (v : Vector T) (xs : List T) (x : T)
    (hi : v.Inv) (hh : v.Holds xs) (hm : v.size + 1 ≤ max_size E) :
    ∃ v1 v2, push_back E v x = .ok v1 ∧ pop_back v1 = .ok v2 ∧ v2.size = v.size ∧
      v2.Holds xs ∧ ∀ i, i < v.size → v2.index i = v.index i := by
  have hp := max_size_le_ptrdiff E
  have hm' : v.size_ + 1 ≤ max_size E := hm
  obtain ⟨v1, h1, hsz1, _, hkeep1, hnew, _⟩ := push_back_ok E v x hi hh.live hm'
  have hl1 : v1.Live := by
    intro j hj
    rw [hsz1] at hj
    by_cases hjv : j < v.size_
    · rw [hkeep1 j hjv]
      exact hh.live j hjv
    · have e : j = v.size_ := by omega
      rw [e, hnew]
      rfl
  have hrep : v1.size_ < SIZE_MOD := by
    unfold PTRDIFF_MAX at hp
    unfold SIZE_MOD
    omega
  obtain ⟨v2, h2, hsz2, hkeep2, _, _⟩ := pop_back_ok v1 hl1 (by omega) hrep
  have hpt : ∀ i, i < v.size_ → slot v2.data_ i = slot v.data_ i := by
    intro i hlt
    rw [hkeep2 i (by omega), hkeep1 i hlt]
  have hsize : v2.size_ = v.size_ := by omega
  refine ⟨v1, v2, h1, h2, hsize, ?_, ?_⟩
  · apply holds_of_slots
    · rw [hsize]
      exact hh.1
    · intro i hlt
      rw [hpt i (by rw [hh.1]; exact hlt)]
      exact hh.slot_eq i hlt
  · intro i hlt
    simp only [index, read, hpt i hlt]

/-- C21, at a full Vector holding 1,2 with capacity 2, where the push
relocates. -/
theorem push_back_pop_back_witness :
    Inv (⟨2, 2, some [some 1, some 2]⟩ : Vector Nat) ∧
    Holds (⟨2, 2, some [some 1, some 2]⟩ : Vector Nat) [1, 2] ∧
    size (⟨2, 2, some [some 1, some 2]⟩ : Vector Nat) + 1 ≤ max_size intType ∧
    ∃ v1 v2, push_back intType (⟨2, 2, some [some 1, some 2]⟩ : Vector Nat) 3 = .ok v1 ∧
      pop_back v1 = .ok v2 ∧
      v2.size = size (⟨2, 2, some [some 1, some 2]⟩ : Vector Nat) ∧
      v2.Holds [1, 2] ∧
      ∀ i, i < size (⟨2, 2, some [some 1, some 2]⟩ : Vector Nat) →
        v2.index i = index (⟨2, 2, some [some 1, some 2]⟩ : Vector Nat) i :=
  ⟨⟨by decide, by decide⟩, holds_of_slots rfl (by decide), by decide,
    push_back_pop_back intType ⟨2, 2, some [some 1, some 2]⟩ [1, 2] 3
      ⟨by decide, by decide⟩ (holds_of_slots rfl (by decide)) (by decide)⟩

end Vector

end Cpp
